import Mathlib

/-!
Shallow embedding of the authn service: the credential store (database.rs),
password hashing and signed-token issue/validate (crypto.rs), the server
handlers (server.rs) and the validating client (client.rs).  Machine
integers are modelled as Nat, with the u64 overflow the source checks made
explicit; cryptographic primitives are modelled symbolically (ideal hash,
EUF-CMA signature); HTTP and JSON transport between client and server is
modelled as direct function composition.
-/

namespace Authn

/-- An argon2 digest, modelled as an ideal (collision-free) hash: the digest
is determined by, and determines, the parameter string, the salt and the
password. -/
structure Argon2Digest where
  params : String
  salt : String
  pass : String
deriving DecidableEq, Repr

/-- The digest computation argon2 performs from parameters, salt and
password. -/
def argon2Hash (params salt pass : String) : Argon2Digest :=
  { params := params, salt := salt, pass := pass }

/-- The parameter string of argon2 Config::default(). -/
def defaultArgon2Params : String := "argon2i,v=19,m=4096,t=3,p=1"

/-- An encoded password string as produced or parsed by rust-argon2: either a
well-formed PHC-style encoding carrying parameters, salt and digest, or a
malformed string. -/
inductive PHCString
  | phc (params salt : String) (digest : Argon2Digest)
  | malformed (raw : String)
deriving DecidableEq, Repr

inductive Argon2Error
  | decodingFail
deriving DecidableEq, Repr

/-- crypto.rs encode_password: fills a fresh 32-byte salt from the thread RNG
(the sampled salt is the explicit salt argument here) and returns
argon2::hash_encoded(pass, salt, Config::default()). -/
def encode_password (salt : String) (pass : String) : Except Argon2Error PHCString :=
  .ok (.phc defaultArgon2Params salt (argon2Hash defaultArgon2Params salt pass))

/-- crypto.rs verify_password: argon2::verify_encoded parses the encoded
string (DecodingFail on a malformed input) and otherwise recomputes the
digest with the encoded parameters and salt and compares digests, returning
the boolean outcome. -/
def verify_password (encoded : PHCString) (pass : String) : Except Argon2Error Bool :=
  match encoded with
  | .malformed _ => .error .decodingFail
  | .phc params salt digest => .ok (argon2Hash params salt pass == digest)

/-- jsonwebtoken::Algorithm (v7): the full enum; note it has no "none"
variant. -/
inductive Alg
  | HS256 | HS384 | HS512
  | ES256 | ES384
  | RS256 | RS384 | RS512
  | PS256 | PS384 | PS512
deriving DecidableEq, Repr

/-- The alg field as it appears on the wire in a token header: either one of
the enum values or an unrecognized string such as "none", which fails header
deserialization. -/
inductive WireAlg
  | known (a : Alg)
  | unknown (s : String)
deriving DecidableEq, Repr

/-- The full claim set serialized into a token (TokenFull in crypto.rs). -/
structure Claims where
  iss : String
  aud : String
  sub : String
  version : Nat
  iat : Nat
  exp : Nat
deriving DecidableEq, Repr

/-- A signature, symbolically: an unforgeable signature is determined by the
signing key, the algorithm and the signed claims. -/
structure Sig where
  kid : Nat
  alg : Alg
  claims : Claims
deriving DecidableEq, Repr

/-- jwt::EncodingKey: private-key material, identified by its key id. -/
structure EncodingKey where
  kid : Nat
deriving DecidableEq, Repr

/-- jwt::DecodingKey: public-key material; it verifies exactly the signatures
made by the EncodingKey with the same key id. -/
structure DecodingKey where
  kid : Nat
deriving DecidableEq, Repr

/-- A compact signed token (header alg, claims, signature), the wire format
produced by jwt::encode. -/
structure SignedToken where
  alg : WireAlg
  claims : Claims
  sig : Sig
deriving DecidableEq, Repr

/-- jwt::encode with Header(alg) over the claims. -/
def jwtEncode (alg : Alg) (claims : Claims) (key : EncodingKey) : SignedToken :=
  { alg := .known alg, claims := claims,
    sig := { kid := key.kid, alg := alg, claims := claims } }

/-- jwt signature verification: the signature checks out iff it was produced
over these claims, with this algorithm, by the paired encoding key. -/
def sigVerify (t : SignedToken) (key : DecodingKey) (alg : Alg) : Bool :=
  t.sig == { kid := key.kid, alg := alg, claims := t.claims }

/-- jwt::Validation (v7). -/
structure Validation where
  leeway : Nat
  validate_exp : Bool
  validate_nbf : Bool
  aud : Option (List String)
  iss : Option String
  sub : Option String
  algorithms : List Alg
deriving DecidableEq, Repr

/-- jwt::Validation::default(). -/
def defaultValidation : Validation :=
  { leeway := 0, validate_exp := true, validate_nbf := false,
    aud := none, iss := none, sub := none, algorithms := [.HS256] }

/-- client.rs make_validation: expiry on, expected issuer, a one-element
audience set, and a one-element algorithm allow-list. -/
def make_validation (alg : Alg) (aud : String) (iss : String) : Validation :=
  { defaultValidation with
    validate_exp := true
    iss := some iss
    aud := some [aud]
    algorithms := [alg] }

/-- jwt::errors::ErrorKind, restricted to the kinds reachable here. -/
inductive JwtError
  | json
  | invalidAlgorithm
  | invalidSignature
  | expiredSignature
  | immatureSignature
  | invalidIssuer
  | invalidSubject
  | invalidAudience
deriving DecidableEq, Repr

/-- crypto.rs TokenError. -/
inductive TokenError
  | invalidDuration
  | jwtErr (e : JwtError)
deriving DecidableEq, Repr

/-- crypto.rs Token: the claims chosen by the caller of issue. -/
structure Token where
  iss : String
  aud : String
  sub : String
  version : Nat
deriving DecidableEq, Repr

/-- crypto.rs Token::issue: iat is the current clock (seconds since the unix
epoch), exp = iat + duration via SystemTime::checked_add, whose overflow
(modelled at the u64-seconds bound) yields InvalidDuration; the claim set is
then signed with the given key and algorithm. -/
def Token.issue (t : Token) (key : EncodingKey) (alg : Alg) (now : Nat)
    (exp_duration : Nat) : Except TokenError SignedToken :=
  if now + exp_duration < 2 ^ 64 then
    .ok (jwtEncode alg
      { iss := t.iss, aud := t.aud, sub := t.sub, version := t.version,
        iat := now, exp := now + exp_duration } key)
  else
    .error .invalidDuration

/-- jwt claim validation (validation.rs, v7): exp first (with leeway), then
nbf, issuer, subject, audience, each against the configured expectation. -/
def validateClaims (c : Claims) (v : Validation) (now : Nat) : Except JwtError Unit :=
  if v.validate_exp && decide (c.exp < now - v.leeway) then .error .expiredSignature
  else if v.validate_nbf then .error .immatureSignature
  else if v.iss.any (fun iss => c.iss != iss) then .error .invalidIssuer
  else if v.sub.any (fun s => c.sub != s) then .error .invalidSubject
  else if v.aud.any (fun auds => !(auds.contains c.aud)) then .error .invalidAudience
  else .ok ()

/-- jwt::decode (v7): parse the header (an unrecognized alg string is a
serde Json error), check the header algorithm against the allow-list, verify
the signature, deserialize the claims, then validate them. -/
def jwtDecode (t : SignedToken) (key : DecodingKey) (v : Validation) (now : Nat) :
    Except JwtError Claims :=
  match t.alg with
  | .unknown _ => .error .json
  | .known alg =>
    if !(v.algorithms.contains alg) then .error .invalidAlgorithm
    else if !(sigVerify t key alg) then .error .invalidSignature
    else
      match validateClaims t.claims v now with
      | .error e => .error e
      | .ok _ => .ok t.claims

/-- crypto.rs Token::validate: jwt::decode, the error mapped to its kind,
then the claim set repackaged. -/
def Token.validate (token : SignedToken) (validation : Validation)
    (pub_key : DecodingKey) (now : Nat) : Except JwtError Token :=
  match jwtDecode token pub_key validation now with
  | .error e => .error e
  | .ok tok =>
    .ok { iss := tok.iss, aud := tok.aud, sub := tok.sub, version := tok.version }

/-- models::User, the entity mapped from the users table (fields per the
FromRow instance generated in database.rs). -/
structure User where
  name : String
  pass_hash : PHCString
  token_version : Nat
deriving DecidableEq, Repr

inductive SqliteCode
  | constraintViolation
  | databaseBusy
  | unknownCode
deriving DecidableEq, Repr

inductive SqliteError
  | sqliteFailure (code : SqliteCode) (extended_code : Int)
  | invalidColumnIndex
  | invalidColumnType
deriving DecidableEq, Repr

/-- server.rs Error, restricted to the variants reachable here. -/
inductive ServerError
  | duplicateName (s : String)
  | userNotFound (s : String)
  | tokenDurationTooBig
  | badRequest
  | algorithmNotAllowed (a : Alg)
  | loginFailed
  | token (e : TokenError)
  | jwtE (e : JwtError)
  | rusqlite (e : SqliteError)
  | argon2E (e : Argon2Error)
deriving DecidableEq, Repr

/-- database.rs error_code_match. -/
def error_code_match (err : SqliteError) (code : SqliteCode) (ext : Int) : Bool :=
  match err with
  | .sqliteFailure c e => c == code && e == ext
  | _ => false

/-- database.rs get_user_by_name: SELECT * FROM users WHERE users.name = ?,
first row or UserNotFound; row_parse of the selected row yields the stored
record (the generic by-name column mapping is embedded separately below). -/
def get_user_by_name (db : List User) (name : String) : Except ServerError User :=
  match db.find? (fun u => u.name == name) with
  | some u => .ok u
  | none => .error (.userNotFound name)

/-- database.rs increment_token: UPDATE users SET token_version =
token_version + 1 WHERE name = ?; the statement succeeds whether or not any
row matched.  The updated store is returned alongside the unit result. -/
def increment_token (db : List User) (name : String) :
    Except ServerError (List User) :=
  .ok (db.map (fun u =>
    if u.name == name then { u with token_version := u.token_version + 1 } else u))

/-- Modelled from the spec: the users table schema (its DDL is not under
src/) keys the table by unique name, token_version defaulting to the initial
value 0; so INSERT INTO users (name, pass_hash) VALUES (?, ?) appends a
version-0 record, or fails with extended code 2067 (unique-constraint
violation) when the name already exists. -/
def sqliteInsertUser (db : List User) (name : String) (pass_hash : PHCString) :
    Except SqliteError (List User) :=
  if db.any (fun u => u.name == name) then
    .error (.sqliteFailure .constraintViolation 2067)
  else
    .ok (db ++ [{ name := name, pass_hash := pass_hash, token_version := 0 }])

/-- database.rs insert_user: run the INSERT and translate a unique-constraint
violation (extended code 2067) into DuplicateName; any other failure passes
through. -/
def insert_user (db : List User) (name : String) (pass_hash : PHCString) :
    Except ServerError (List User) :=
  match sqliteInsertUser db name pass_hash with
  | .ok db2 => .ok db2
  | .error err =>
    if error_code_match err .constraintViolation 2067 then
      .error (.duplicateName name)
    else
      .error (.rusqlite err)

/-- A SQL value as rusqlite hands it to FromSql; the per-field FromSql
conversion is factored out of the generic name-resolution machinery. -/
inductive SqlValue
  | int (i : Int)
  | text (s : String)
  | nullValue
deriving DecidableEq, Repr

/-- Errors of the generic row mapping: InvalidColumnIndex from
rusqlite::Row::get, and the unwrap on a failed column-name lookup in the
generated from_row (a panic in the source). -/
inductive RowError
  | invalidColumnIndex
  | missingColumn (name : String)
deriving DecidableEq, Repr

/-- database.rs Row: a result row plus a column offset; cols always holds the
full column-name list of the underlying row. -/
structure Row where
  off : Nat
  cols : List String
  vals : List SqlValue
deriving DecidableEq, Repr

/-- database.rs Row::get: reads the underlying row at idx + off. -/
def Row.get (r : Row) (idx : Nat) : Except RowError SqlValue :=
  match r.vals.get? (idx + r.off) with
  | some v => .ok v
  | none => .error .invalidColumnIndex

/-- database.rs Row::advance. -/
def Row.advance (r : Row) (n : Nat) : Row := { r with off := r.off + n }

/-- The find helper generated inside from_row: the first index of s in slc. -/
def findCol : List String → String → Option Nat
  | [], _ => none
  | c :: rest, s => if c == s then some 0 else (findCol rest s).map (· + 1)

/-- One field of the generated from_row: look the field name up in the full
column list (a miss is the unwrap panic in the source) and read the row at
that index plus the row offset. -/
def fieldLookup (r : Row) (f : String) : Except RowError SqlValue :=
  match findCol r.cols f with
  | none => .error (.missingColumn f)
  | some i => r.get i

/-- The from_row generated by impl_from_row for an entity with the given
field list; column_count of such an entity is fields.length. -/
def from_row_fields (fields : List String) (r : Row) : Except RowError (List SqlValue) :=
  fields.mapM (fieldLookup r)

/-- The FromRow instance for a pair (T, U) in database.rs: parse T, advance
the row by T::column_count, parse U from the advanced row. -/
def pair_from_row (ft fu : List String) (r : Row) :
    Except RowError (List SqlValue × List SqlValue) :=
  match from_row_fields ft r with
  | .error e => .error e
  | .ok t =>
    match from_row_fields fu (r.advance ft.length) with
    | .error e => .error e
    | .ok u => .ok (t, u)

/-- server.rs MAX_DURATION, in seconds. -/
def MAX_DURATION : Nat := 60 * 60 * 24 * 30

/-- server.rs Server, the key file contents already parsed. -/
structure Server where
  server_name : String
  alg : Alg
  priv_key : EncodingKey
  pub_key : String
deriving DecidableEq, Repr

/-- lib.rs PostLoginRequest. -/
structure PostLoginRequest where
  aud : String
  duration : Nat
  name : String
  pass : String
deriving DecidableEq, Repr

/-- server.rs post_login: fetch the user, check the password (a mismatch is
LoginFailed), clamp the requested duration to MAX_DURATION and issue a token
carrying the user's current token_version; the JSON envelope is transport
glue. -/
def post_login (srv : Server) (db : List User) (req : PostLoginRequest)
    (now : Nat) : Except ServerError SignedToken :=
  match get_user_by_name db req.name with
  | .error e => .error e
  | .ok user =>
    match verify_password user.pass_hash req.pass with
    | .error e => .error (.argon2E e)
    | .ok false => .error .loginFailed
    | .ok true =>
      match Token.issue
          { iss := srv.server_name, aud := req.aud, sub := req.name,
            version := user.token_version }
          srv.priv_key srv.alg now (min req.duration MAX_DURATION) with
      | .error e => .error (.token e)
      | .ok t => .ok t

/-- The response body of the server.rs get_user handler. -/
structure GetUserRes where
  name : String
  token_version : Nat
deriving DecidableEq, Repr

/-- server.rs get_user: look the user up and answer with name and
token_version only. -/
def get_user (db : List User) (name : String) : Except ServerError GetUserRes :=
  match get_user_by_name db name with
  | .error e => .error e
  | .ok u => .ok { name := u.name, token_version := u.token_version }

/-- server.rs render_error: the error body carried by a non-OK response. -/
def errorBody : ServerError → String
  | .userNotFound _ => "user not found"
  | .badRequest => "bad request"
  | .loginFailed => "login failed"
  | _ => "internal server error"

/-- client.rs Error, restricted to the variants reachable here. -/
inductive ClientError
  | algorithmNotAllowed (a : Alg)
  | versionMismatch
  | api (s : String)
  | jwtE (e : JwtError)
deriving DecidableEq, Repr

/-- client.rs Config, the pub_key_file already read and parsed. -/
structure ClientConfig where
  server_name : String
  client_name : String
  alg : Alg
  pub_key : DecodingKey
deriving DecidableEq, Repr

/-- client.rs Client. -/
structure Client where
  client_name : String
  pub_key : DecodingKey
  validation : Validation
deriving DecidableEq, Repr

/-- client.rs TryFrom Config for Client: only the asymmetric algorithms can
load a public key, anything else is AlgorithmNotAllowed; the validation
comes from make_validation over the configured algorithm, client name and
server name. -/
def client_try_from (cfg : ClientConfig) : Except ClientError Client :=
  match cfg.alg with
  | .HS256 | .HS384 | .HS512 => .error (.algorithmNotAllowed cfg.alg)
  | _ =>
    .ok { client_name := cfg.client_name, pub_key := cfg.pub_key,
          validation := make_validation cfg.alg cfg.client_name cfg.server_name }

/-- client.rs Client::validate_token: phase 1 validates locally via
Token::validate; phase 2 issues GET /user/sub — the server answers through
its get_user handler, and a non-OK status body is parsed into Error::Api —
then compares the live token_version with the embedded one. -/
def Client.validate_token (c : Client) (db : List User) (now : Nat)
    (tokenStr : SignedToken) : Except ClientError String :=
  match Token.validate tokenStr c.validation c.pub_key now with
  | .error e => .error (.jwtE e)
  | .ok token =>
    match get_user db token.sub with
    | .error e => .error (.api (errorBody e))
    | .ok res =>
      if res.token_version != token.version then .error .versionMismatch
      else .ok token.sub

/-- One successful state-changing credential-store operation: after setup
the mutating operations are increment_token (the target of revoke) and
insert_user; reads leave the store unchanged, and failed operations also
leave it unchanged (both covered by reflexivity of the closure). -/
inductive DbStep : List User → List User → Prop
  | increment (db : List User) (name : String) (db2 : List User) :
      increment_token db name = .ok db2 → DbStep db db2
  | insert (db : List User) (name : String) (ph : PHCString) (db2 : List User) :
      insert_user db name ph = .ok db2 → DbStep db db2

/-- The token_version the store currently records for a name, if any: the
version field of the record get_user_by_name would return. -/
def userVersion (db : List User) (name : String) : Option Nat :=
  (db.find? (fun u => u.name == name)).map (fun u => u.token_version)

/-! Theorems.  Helper lemmas come first, then one theorem (plus witness or
counterexample) per specification claim. -/

/-- C5: verify_password of encode_password(p) against p returns Ok true,
against any distinct p2 it returns Ok false, and verify_password returns an
error only on a malformed encoded input, never on a mere mismatch. -/
theorem password_round_trip (salt p p2 : String) (hne : p ≠ p2) :
    (∀ enc, encode_password salt p = .ok enc →
        verify_password enc p = .ok true ∧ verify_password enc p2 = .ok false) ∧
    (∀ enc pass err, verify_password enc pass = .error err →
        ∃ raw, enc = .malformed raw) := by
  constructor
  · intro enc henc
    have henc2 : enc = .phc defaultArgon2Params salt
        (argon2Hash defaultArgon2Params salt p) := by
      simpa [encode_password] using henc.symm
    subst henc2
    refine ⟨by simp [verify_password], ?_⟩
    simp only [verify_password, Except.ok.injEq, beq_eq_false_iff_ne, ne_eq]
    intro h
    exact hne (congrArg Argon2Digest.pass h).symm
  · intro enc pass err h
    cases enc with
    | phc params salt2 digest => simp [verify_password] at h
    | malformed raw => exact ⟨raw, rfl⟩

/-- Witness for C5 at concrete plaintexts. -/
theorem password_round_trip_witness :
    (∀ enc, encode_password "salt" "pw" = .ok enc →
        verify_password enc "pw" = .ok true ∧ verify_password enc "pw2" = .ok false) ∧
    (∀ enc pass err, verify_password enc pass = .error err →
        ∃ raw, enc = .malformed raw) :=
  password_round_trip "salt" "pw" "pw2" (by decide)

/-- C9: two calls to encode_password that draw distinct salts produce
distinct encoded strings, for any plaintexts, in particular equal ones: the
fresh salt is embedded in the output. -/
theorem salt_freshness (s1 s2 p1 p2 : String) (hs : s1 ≠ s2)
    (e1 e2 : PHCString)
    (h1 : encode_password s1 p1 = .ok e1)
    (h2 : encode_password s2 p2 = .ok e2) : e1 ≠ e2 := by
  have he1 : e1 = .phc defaultArgon2Params s1 (argon2Hash defaultArgon2Params s1 p1) := by
    simpa [encode_password] using h1.symm
  have he2 : e2 = .phc defaultArgon2Params s2 (argon2Hash defaultArgon2Params s2 p2) := by
    simpa [encode_password] using h2.symm
  subst he1; subst he2
  intro h
  injection h with hpar hsalt hdig
  exact hs hsalt

/-- Witness for C9 at concrete salts. -/
theorem salt_freshness_witness :
    PHCString.phc defaultArgon2Params "s1" (argon2Hash defaultArgon2Params "s1" "pw") ≠
    PHCString.phc defaultArgon2Params "s2" (argon2Hash defaultArgon2Params "s2" "pw") :=
  salt_freshness "s1" "s2" "pw" "pw" (by decide) _ _ rfl rfl

/-- C7: increment_token succeeds for every name; the store afterwards
relates pointwise to the store before: a record whose name matches gets
token_version + 1 with name and pass_hash untouched, any other record is
unchanged; and with no matching record the whole store is unchanged — a
silent no-op, not a NotFound error. -/
theorem increment_token_postcondition (db : List User) (name : String) :
    ∃ db2, increment_token db name = .ok db2 ∧
      List.Forall₂ (fun u u2 =>
        (u.name = name →
          u2 = { name := u.name, pass_hash := u.pass_hash,
                 token_version := u.token_version + 1 }) ∧
        (u.name ≠ name → u2 = u)) db db2 ∧
      ((∀ u ∈ db, u.name ≠ name) → increment_token db name = .ok db) := by
  refine ⟨_, rfl, ?_, ?_⟩
  · induction db with
    | nil => exact List.Forall₂.nil
    | cons u rest ih =>
      refine List.Forall₂.cons ?_ ih
      by_cases h : u.name = name
      · simp [h]
      · simp [h]
  · intro hno
    have hmap : ∀ l : List User, (∀ u ∈ l, u.name ≠ name) →
        l.map (fun u => if u.name == name then
          { u with token_version := u.token_version + 1 } else u) = l := by
      intro l hl
      induction l with
      | nil => rfl
      | cons u rest ih =>
        simp only [List.map_cons]
        rw [if_neg (by simp [hl u (List.mem_cons_self u rest)]),
          ih (fun x hx => hl x (List.mem_cons_of_mem _ hx))]
    unfold increment_token
    rw [hmap db hno]

/-- Witness for C7 on a concrete two-record store. -/
theorem increment_token_postcondition_witness :
    ∃ db2, increment_token
        [{ name := "alice", pass_hash := .malformed "h", token_version := 0 },
         { name := "bob", pass_hash := .malformed "g", token_version := 5 }]
        "alice" = .ok db2 ∧
      List.Forall₂ (fun (u u2 : User) =>
        (u.name = "alice" →
          u2 = { name := u.name, pass_hash := u.pass_hash,
                 token_version := u.token_version + 1 }) ∧
        (u.name ≠ "alice" → u2 = u))
        [{ name := "alice", pass_hash := .malformed "h", token_version := 0 },
         { name := "bob", pass_hash := .malformed "g", token_version := 5 }] db2 ∧
      ((∀ u ∈ ([{ name := "alice", pass_hash := .malformed "h", token_version := 0 },
                { name := "bob", pass_hash := .malformed "g", token_version := 5 }] : List User),
          u.name ≠ "alice") →
        increment_token
          [{ name := "alice", pass_hash := .malformed "h", token_version := 0 },
           { name := "bob", pass_hash := .malformed "g", token_version := 5 }]
          "alice"
          = .ok [{ name := "alice", pass_hash := .malformed "h", token_version := 0 },
                 { name := "bob", pass_hash := .malformed "g", token_version := 5 }]) :=
  increment_token_postcondition
    [{ name := "alice", pass_hash := .malformed "h", token_version := 0 },
     { name := "bob", pass_hash := .malformed "g", token_version := 5 }] "alice"

/-- C6: inserting a fresh name succeeds and creates a version-0 record which
get_user_by_name then returns; a second insert of the same name fails with
DuplicateName, detected from the unique-constraint violation (extended code
2067) of the underlying INSERT rather than a pre-check; the error carries no
new store state, so the first record is unchanged. -/
theorem insert_user_uniqueness (db : List User) (name : String)
    (h1 h2 : PHCString) (hfresh : ∀ u ∈ db, u.name ≠ name) :
    ∃ db2, insert_user db name h1 = .ok db2 ∧
      get_user_by_name db2 name
        = .ok { name := name, pass_hash := h1, token_version := 0 } ∧
      sqliteInsertUser db2 name h2
        = .error (.sqliteFailure .constraintViolation 2067) ∧
      insert_user db2 name h2 = .error (.duplicateName name) := by
  have hany : db.any (fun u => u.name == name) = false := by
    rw [List.any_eq_false]
    intro u hu
    simpa using hfresh u hu
  have hnone : db.find? (fun u => u.name == name) = none := by
    rw [List.find?_eq_none]
    intro u hu
    simpa using hfresh u hu
  have hins : sqliteInsertUser db name h1
      = .ok (db ++ [{ name := name, pass_hash := h1, token_version := 0 }]) := by
    simp [sqliteInsertUser, hany]
  have hdup : sqliteInsertUser
      (db ++ [{ name := name, pass_hash := h1, token_version := 0 }]) name h2
      = .error (.sqliteFailure .constraintViolation 2067) := by
    simp [sqliteInsertUser, List.any_append]
  refine ⟨db ++ [{ name := name, pass_hash := h1, token_version := 0 }],
    ?_, ?_, hdup, ?_⟩
  · simp [insert_user, hins]
  · simp [get_user_by_name, List.find?_append, hnone]
  · simp [insert_user, hdup, error_code_match]

/-- Witness for C6 on the empty store. -/
theorem insert_user_uniqueness_witness :
    ∃ db2, insert_user [] "alice" (.malformed "h1") = .ok db2 ∧
      get_user_by_name db2 "alice"
        = .ok { name := "alice", pass_hash := .malformed "h1", token_version := 0 } ∧
      sqliteInsertUser db2 "alice" (.malformed "h2")
        = .error (.sqliteFailure .constraintViolation 2067) ∧
      insert_user db2 "alice" (.malformed "h2") = .error (.duplicateName "alice") :=
  insert_user_uniqueness [] "alice" (.malformed "h1") (.malformed "h2") (by simp)

/-- The projection get_user exposes of a find? result agrees on any two
stores that agree pointwise on names and token_versions. -/
theorem find?_name_version_eq (db1 db2 : List User) (name : String)
    (h : List.Forall₂
      (fun a b => a.name = b.name ∧ a.token_version = b.token_version) db1 db2) :
    Option.map (fun u => (u.name, u.token_version))
        (db1.find? (fun u => u.name == name))
      = Option.map (fun u => (u.name, u.token_version))
        (db2.find? (fun u => u.name == name)) := by
  induction h with
  | nil => rfl
  | @cons a b as bs hab htail ih =>
    obtain ⟨hn, hv⟩ := hab
    by_cases hm : a.name = name
    · rw [List.find?_cons_of_pos _ (by simp [hm]),
        List.find?_cons_of_pos _ (by simp [← hn, hm])]
      simp [hn, hv]
    · rw [List.find?_cons_of_neg _ (by simp [hm]),
        List.find?_cons_of_neg _ (by simp [← hn, hm])]
      exact ih

/-- C10: the successful get_user response is exactly the record's name and
token_version (never the pass_hash), and any two stores that agree on names
and token_versions — differing only in pass_hash — produce identical
get_user responses. -/
theorem get_user_hides_pass_hash (db1 db2 : List User) (name : String)
    (h : List.Forall₂
      (fun a b => a.name = b.name ∧ a.token_version = b.token_version) db1 db2) :
    get_user db1 name = get_user db2 name ∧
    (∀ u, get_user_by_name db1 name = .ok u →
      get_user db1 name = .ok { name := u.name, token_version := u.token_version }) := by
  constructor
  · have hfind := find?_name_version_eq db1 db2 name h
    unfold get_user get_user_by_name
    cases hf1 : db1.find? (fun u => u.name == name) with
    | none =>
      cases hf2 : db2.find? (fun u => u.name == name) with
      | none => rfl
      | some u2 => rw [hf1, hf2] at hfind; simp at hfind
    | some u1 =>
      cases hf2 : db2.find? (fun u => u.name == name) with
      | none => rw [hf1, hf2] at hfind; simp at hfind
      | some u2 =>
        rw [hf1, hf2] at hfind
        simp only [Option.map_some', Option.some.injEq, Prod.mk.injEq] at hfind
        simp [hfind.1, hfind.2]
  · intro u hu
    unfold get_user
    rw [hu]

/-- Witness for C10: two one-record stores differing only in pass_hash. -/
theorem get_user_hides_pass_hash_witness :
    get_user [{ name := "alice", pass_hash := .malformed "h1", token_version := 3 }] "alice"
      = get_user [{ name := "alice", pass_hash := .malformed "h2", token_version := 3 }] "alice" ∧
    (∀ u, get_user_by_name
        [{ name := "alice", pass_hash := .malformed "h1", token_version := 3 }] "alice" = .ok u →
      get_user [{ name := "alice", pass_hash := .malformed "h1", token_version := 3 }] "alice"
        = .ok { name := u.name, token_version := u.token_version }) :=
  get_user_hides_pass_hash _ _ "alice" (List.Forall₂.cons ⟨rfl, rfl⟩ List.Forall₂.nil)

/-- Anatomy of a successful login: it found the user, the password matched,
the time addition did not overflow, and the returned token is the signed
claim set with the user's current token_version, the requested audience and
the clamped duration. -/
theorem post_login_ok_elim (srv : Server) (db : List User) (req : PostLoginRequest)
    (now : Nat) (t : SignedToken) (h : post_login srv db req now = .ok t) :
    ∃ u, get_user_by_name db req.name = .ok u ∧
      verify_password u.pass_hash req.pass = .ok true ∧
      now + min req.duration MAX_DURATION < 2 ^ 64 ∧
      t = jwtEncode srv.alg
        { iss := srv.server_name, aud := req.aud, sub := req.name,
          version := u.token_version, iat := now,
          exp := now + min req.duration MAX_DURATION } srv.priv_key := by
  unfold post_login at h
  split at h
  · cases h
  next user hu =>
    split at h
    · cases h
    · cases h
    next hv =>
      split at h
      · cases h
      next tok hiss =>
        cases h
        unfold Token.issue at hiss
        split at hiss
        next hov =>
          cases hiss
          exact ⟨user, hu, hv, hov, rfl⟩
        next => cases hiss

/-- C4: a login whose requested duration d exceeds the policy maximum is not
rejected; whenever the user exists, the password matches and the clock
addition stays representable, login succeeds and the issued token satisfies
exp - iat = min d MAX_DURATION — in particular exp - iat = MAX_DURATION, not
d, when d exceeds the maximum. -/
theorem duration_clamp (srv : Server) (db : List User) (req : PostLoginRequest)
    (now : Nat) (u : User)
    (hu : get_user_by_name db req.name = .ok u)
    (hpw : verify_password u.pass_hash req.pass = .ok true)
    (hov : now + min req.duration MAX_DURATION < 2 ^ 64) :
    ∃ t, post_login srv db req now = .ok t ∧
      t.claims.exp - t.claims.iat = min req.duration MAX_DURATION ∧
      (MAX_DURATION < req.duration → t.claims.exp - t.claims.iat = MAX_DURATION) := by
  refine ⟨jwtEncode srv.alg
      { iss := srv.server_name, aud := req.aud, sub := req.name,
        version := u.token_version, iat := now,
        exp := now + min req.duration MAX_DURATION } srv.priv_key, ?_, ?_, ?_⟩
  · simp only [post_login, hu, hpw, Token.issue]
    rw [if_pos hov]
  · simp [jwtEncode]
  · intro hgt
    simp [jwtEncode, Nat.min_eq_right (Nat.le_of_lt hgt)]

/-- Witness for C4: a request over the maximum by one second. -/
theorem duration_clamp_witness :
    ∃ t, post_login
        { server_name := "srv", alg := .RS256, priv_key := { kid := 0 }, pub_key := "pem" }
        [{ name := "alice",
           pass_hash := .phc defaultArgon2Params "s" (argon2Hash defaultArgon2Params "s" "pw"),
           token_version := 0 }]
        { aud := "app", duration := MAX_DURATION + 1, name := "alice", pass := "pw" }
        1000 = .ok t ∧
      t.claims.exp - t.claims.iat
        = min (MAX_DURATION + 1) MAX_DURATION ∧
      (MAX_DURATION < MAX_DURATION + 1 → t.claims.exp - t.claims.iat = MAX_DURATION) :=
  duration_clamp
    { server_name := "srv", alg := .RS256, priv_key := { kid := 0 }, pub_key := "pem" }
    [{ name := "alice",
       pass_hash := .phc defaultArgon2Params "s" (argon2Hash defaultArgon2Params "s" "pw"),
       token_version := 0 }]
    { aud := "app", duration := MAX_DURATION + 1, name := "alice", pass := "pw" }
    1000
    { name := "alice",
      pass_hash := .phc defaultArgon2Params "s" (argon2Hash defaultArgon2Params "s" "pw"),
      token_version := 0 }
    (by rfl) (by rfl) (by decide)

/-- A client built by TryFrom from its config carries the config's names and
key and a validation built by make_validation. -/
theorem client_try_from_ok (cfg : ClientConfig) (c : Client)
    (hc : client_try_from cfg = .ok c) :
    c = { client_name := cfg.client_name, pub_key := cfg.pub_key,
          validation := make_validation cfg.alg cfg.client_name cfg.server_name } := by
  unfold client_try_from at hc
  cases halg : cfg.alg <;> rw [halg] at hc <;> cases hc <;> rfl

/-- C3: with a client built from its config — whose allow-list is the single
configured algorithm — any wire token whose header algorithm is not that
algorithm, including an unrecognized header algorithm such as "none", fails
validate_token with a local validation error, whatever the claims: no
subject identity is ever returned. -/
theorem algorithm_allow_list (cfg : ClientConfig) (c : Client)
    (hc : client_try_from cfg = .ok c)
    (t : SignedToken) (db : List User) (now : Nat)
    (halg : t.alg ≠ .known cfg.alg) :
    ∃ e, Client.validate_token c db now t = .error (.jwtE e) := by
  rw [client_try_from_ok cfg c hc]
  cases ha : t.alg with
  | unknown s =>
    refine ⟨.json, ?_⟩
    simp [Client.validate_token, Token.validate, jwtDecode, ha]
  | known a =>
    have hne : a ≠ cfg.alg := fun hcontra => halg (by rw [ha, hcontra])
    refine ⟨.invalidAlgorithm, ?_⟩
    simp [Client.validate_token, Token.validate, jwtDecode, ha,
      make_validation, defaultValidation, hne]

/-- Witness for C3: a token carrying the unsigned "none" header algorithm is
rejected by an RS256-only client. -/
theorem algorithm_allow_list_witness :
    ∃ e, Client.validate_token
      { client_name := "app", pub_key := { kid := 0 },
        validation := make_validation .RS256 "app" "srv" }
      [] 0
      { alg := .unknown "none",
        claims := { iss := "srv", aud := "app", sub := "alice",
                    version := 0, iat := 0, exp := 10 },
        sig := { kid := 0, alg := .RS256,
                 claims := { iss := "srv", aud := "app", sub := "alice",
                             version := 0, iat := 0, exp := 10 } } }
      = .error (.jwtE e) :=
  algorithm_allow_list
    { server_name := "srv", client_name := "app", alg := .RS256, pub_key := { kid := 0 } }
    _ rfl _ [] 0 (by decide)

/-- find? by name commutes with mapping a name-preserving function. -/
theorem find?_name_map (f : User → User) (hf : ∀ u, (f u).name = u.name)
    (db : List User) (n : String) :
    (db.map f).find? (fun u => u.name == n)
      = (db.find? (fun u => u.name == n)).map f := by
  rw [List.find?_map]
  have hp : ((fun u : User => u.name == n) ∘ f) = (fun u : User => u.name == n) := by
    funext u
    simp [Function.comp, hf]
  rw [hp]

/-- A successful get_user_by_name is exactly a successful find? by name. -/
theorem get_user_by_name_ok (db : List User) (n : String) (u : User)
    (h : get_user_by_name db n = .ok u) :
    db.find? (fun x => x.name == n) = some u := by
  unfold get_user_by_name at h
  split at h
  next u2 hu2 => cases h; exact hu2
  next => cases h

/-- increment_token cannot lower any stored version. -/
theorem userVersion_increment_mono (db db2 : List User) (name : String)
    (heq : increment_token db name = .ok db2) (n : String) (v : Nat)
    (hv : userVersion db n = some v) :
    ∃ v2, userVersion db2 n = some v2 ∧ v ≤ v2 := by
  unfold increment_token at heq
  cases heq
  unfold userVersion at hv ⊢
  rw [find?_name_map _ (fun u => by by_cases h : u.name = name <;> simp [h]) db n]
  obtain ⟨u, hu, hvv⟩ := Option.map_eq_some'.mp hv
  rw [hu]
  by_cases h : u.name = name
  · refine ⟨u.token_version + 1, by simp [h], by omega⟩
  · refine ⟨u.token_version, by simp [h], by omega⟩

/-- increment_token bumps the stored version of the target name by one. -/
theorem userVersion_increment_exact (db db2 : List User) (name : String)
    (heq : increment_token db name = .ok db2) (v : Nat)
    (hv : userVersion db name = some v) :
    userVersion db2 name = some (v + 1) := by
  unfold increment_token at heq
  cases heq
  unfold userVersion at hv ⊢
  rw [find?_name_map _ (fun u => by by_cases h : u.name = name <;> simp [h]) db name]
  obtain ⟨u, hu, hvv⟩ := Option.map_eq_some'.mp hv
  have hpu := List.find?_some hu
  rw [hu]
  simp only [Option.map_some']
  simp [hpu, hvv]

/-- A successful insert_user leaves every previously stored version as it
was: the insert only succeeds for a name that was absent. -/
theorem userVersion_insert_mono (db db2 : List User) (name : String) (ph : PHCString)
    (heq : insert_user db name ph = .ok db2) (n : String) (v : Nat)
    (hv : userVersion db n = some v) :
    userVersion db2 n = some v := by
  unfold insert_user at heq
  split at heq
  next db3 hins =>
    cases heq
    unfold sqliteInsertUser at hins
    split at hins
    · cases hins
    next hany =>
      cases hins
      unfold userVersion at hv ⊢
      obtain ⟨u, hu, hvv⟩ := Option.map_eq_some'.mp hv
      rw [List.find?_append, hu]
      simp [hvv]
  next err hins => split at heq <;> cases heq

/-- No single store operation lowers a stored version. -/
theorem userVersion_step_mono (db db2 : List User) (h : DbStep db db2)
    (n : String) (v : Nat) (hv : userVersion db n = some v) :
    ∃ v2, userVersion db2 n = some v2 ∧ v ≤ v2 := by
  cases h with
  | increment name db2x heq => exact userVersion_increment_mono _ _ name heq n v hv
  | insert name ph db2x heq =>
    exact ⟨v, userVersion_insert_mono _ _ name ph heq n v hv, le_refl v⟩

/-- No sequence of store operations lowers a stored version. -/
theorem userVersion_rtc_mono (db db2 : List User)
    (h : Relation.ReflTransGen DbStep db db2) (n : String) (v : Nat)
    (hv : userVersion db n = some v) :
    ∃ v2, userVersion db2 n = some v2 ∧ v ≤ v2 := by
  induction h with
  | refl => exact ⟨v, hv, le_refl v⟩
  | tail hpre hlast ih =>
    obtain ⟨v1, hv1, hle1⟩ := ih
    obtain ⟨v2, hv2, hle2⟩ := userVersion_step_mono _ _ hlast n v1 hv1
    exact ⟨v2, hv2, le_trans hle1 hle2⟩

/-- Phase-1 success: a token issued over matching configuration (paired
keys, the allow-listed algorithm, issuer and audience as the validation
expects) passes the local Token::validate while unexpired. -/
theorem validate_issued_token (alg : Alg) (enc : EncodingKey) (dec : DecodingKey)
    (client_name server_name : String) (claims : Claims) (now : Nat)
    (hkid : dec.kid = enc.kid)
    (hiss : claims.iss = server_name)
    (haud : claims.aud = client_name)
    (hexp : now ≤ claims.exp) :
    Token.validate (jwtEncode alg claims enc)
      (make_validation alg client_name server_name) dec now
      = .ok { iss := claims.iss, aud := claims.aud, sub := claims.sub,
              version := claims.version } := by
  unfold Token.validate jwtDecode jwtEncode sigVerify validateClaims
    make_validation defaultValidation
  simp [hkid, hiss, haud, Nat.not_lt.mpr hexp]

/-- C2: a token issued by the server's login for user U, with audience the
validating client's name, validates at the client and returns U's name, at
any later store state reachable without revoking U (U's stored version
unchanged), provided the token is unexpired at check time and client and
server configuration agree: same algorithm, paired keys, matching server
name. -/
theorem issue_validate_round_trip (cfg : ClientConfig) (c : Client) (srv : Server)
    (db db2 : List User) (req : PostLoginRequest) (t : SignedToken)
    (now0 now1 : Nat)
    (hc : client_try_from cfg = .ok c)
    (hkey : cfg.pub_key.kid = srv.priv_key.kid)
    (halg : cfg.alg = srv.alg)
    (hiss : cfg.server_name = srv.server_name)
    (haud : req.aud = cfg.client_name)
    (hlogin : post_login srv db req now0 = .ok t)
    (h12 : Relation.ReflTransGen DbStep db db2)
    (hnorev : userVersion db2 req.name = userVersion db req.name)
    (hexp : now1 ≤ t.claims.exp) :
    Client.validate_token c db2 now1 t = .ok req.name := by
  obtain ⟨u, hu, hpw, hov, ht⟩ := post_login_ok_elim srv db req now0 t hlogin
  subst ht
  rw [client_try_from_ok cfg c hc]
  have hphase1 := validate_issued_token srv.alg srv.priv_key cfg.pub_key
    cfg.client_name srv.server_name
    { iss := srv.server_name, aud := req.aud, sub := req.name,
      version := u.token_version, iat := now0,
      exp := now0 + min req.duration MAX_DURATION }
    now1 hkey rfl haud hexp
  have hv0 : userVersion db req.name = some u.token_version := by
    unfold userVersion
    rw [get_user_by_name_ok db req.name u hu]
    rfl
  have hv2 : userVersion db2 req.name = some u.token_version := by
    rw [hnorev, hv0]
  obtain ⟨u2, hu2, hvu2⟩ := Option.map_eq_some'.mp hv2
  have hget : get_user db2 req.name
      = .ok { name := u2.name, token_version := u2.token_version } := by
    unfold get_user get_user_by_name
    rw [hu2]
  simp only [Client.validate_token, halg, hiss, hphase1, hget]
  simp [hvu2]

/-- Witness for C2: a fresh one-user store, login at time 1000 for one hour,
validation at time 1234 against the unchanged store. -/
theorem issue_validate_round_trip_witness :
    Client.validate_token
      { client_name := "app", pub_key := { kid := 0 },
        validation := make_validation .RS256 "app" "srv" }
      [{ name := "alice",
         pass_hash := .phc defaultArgon2Params "s" (argon2Hash defaultArgon2Params "s" "pw"),
         token_version := 0 }]
      1234
      (jwtEncode .RS256
        { iss := "srv", aud := "app", sub := "alice",
          version := 0, iat := 1000, exp := 4600 } { kid := 0 })
      = .ok "alice" :=
  issue_validate_round_trip
    { server_name := "srv", client_name := "app", alg := .RS256, pub_key := { kid := 0 } }
    _
    { server_name := "srv", alg := .RS256, priv_key := { kid := 0 }, pub_key := "pem" }
    [{ name := "alice",
       pass_hash := .phc defaultArgon2Params "s" (argon2Hash defaultArgon2Params "s" "pw"),
       token_version := 0 }]
    _
    { aud := "app", duration := 3600, name := "alice", pass := "pw" }
    _ 1000 1234
    rfl rfl rfl rfl rfl (by rfl) Relation.ReflTransGen.refl rfl (by decide)

/-- C1: after revoke — increment_token on U — every token issued to U before
the revocation still passes the purely local phase 1 (signature intact,
unexpired: first conjunct), yet fails the client's validate_token with the
VersionMismatch (Revoked) error; and it keeps failing at every store state
reachable by any sequence of later operations, because the stored version
only grows and so never again equals the embedded one. -/
theorem revocation_rejects_old_tokens (cfg : ClientConfig) (c : Client) (srv : Server)
    (db db2 db3 db4 : List User) (req : PostLoginRequest) (t : SignedToken)
    (now0 now1 : Nat)
    (hc : client_try_from cfg = .ok c)
    (hkey : cfg.pub_key.kid = srv.priv_key.kid)
    (halg : cfg.alg = srv.alg)
    (hiss : cfg.server_name = srv.server_name)
    (haud : req.aud = cfg.client_name)
    (hlogin : post_login srv db req now0 = .ok t)
    (h12 : Relation.ReflTransGen DbStep db db2)
    (hrev : increment_token db2 req.name = .ok db3)
    (h34 : Relation.ReflTransGen DbStep db3 db4)
    (hexp : now1 ≤ t.claims.exp) :
    (∃ tok, Token.validate t c.validation c.pub_key now1 = .ok tok) ∧
    Client.validate_token c db4 now1 t = .error .versionMismatch := by
  obtain ⟨u, hu, hpw, hov, ht⟩ := post_login_ok_elim srv db req now0 t hlogin
  subst ht
  rw [client_try_from_ok cfg c hc]
  have hphase1 := validate_issued_token srv.alg srv.priv_key cfg.pub_key
    cfg.client_name srv.server_name
    { iss := srv.server_name, aud := req.aud, sub := req.name,
      version := u.token_version, iat := now0,
      exp := now0 + min req.duration MAX_DURATION }
    now1 hkey rfl haud hexp
  have hv0 : userVersion db req.name = some u.token_version := by
    unfold userVersion
    rw [get_user_by_name_ok db req.name u hu]
    rfl
  obtain ⟨v1, hv1, hle1⟩ := userVersion_rtc_mono db db2 h12 req.name u.token_version hv0
  have hv3 := userVersion_increment_exact db2 db3 req.name hrev v1 hv1
  obtain ⟨v4, hv4, hle4⟩ := userVersion_rtc_mono db3 db4 h34 req.name (v1 + 1) hv3
  obtain ⟨u4, hu4, hvu4⟩ := Option.map_eq_some'.mp hv4
  have hget : get_user db4 req.name
      = .ok { name := u4.name, token_version := u4.token_version } := by
    unfold get_user get_user_by_name
    rw [hu4]
  have hne : u4.token_version ≠ u.token_version := by omega
  constructor
  · exact ⟨_, by simp only [halg, hiss]; exact hphase1⟩
  · simp only [Client.validate_token, halg, hiss, hphase1, hget]
    simp [hne]

/-- Witness for C1: login at time 1000, revocation, validation of the old
token at time 2000 — still unexpired and well signed, but rejected. -/
theorem revocation_rejects_old_tokens_witness :
    (∃ tok, Token.validate
      (jwtEncode .RS256
        { iss := "srv", aud := "app", sub := "alice",
          version := 0, iat := 1000, exp := 4600 } { kid := 0 })
      (make_validation .RS256 "app" "srv") { kid := 0 } 2000 = .ok tok) ∧
    Client.validate_token
      { client_name := "app", pub_key := { kid := 0 },
        validation := make_validation .RS256 "app" "srv" }
      [{ name := "alice",
         pass_hash := .phc defaultArgon2Params "s" (argon2Hash defaultArgon2Params "s" "pw"),
         token_version := 1 }]
      2000
      (jwtEncode .RS256
        { iss := "srv", aud := "app", sub := "alice",
          version := 0, iat := 1000, exp := 4600 } { kid := 0 })
      = .error .versionMismatch :=
  revocation_rejects_old_tokens
    { server_name := "srv", client_name := "app", alg := .RS256, pub_key := { kid := 0 } }
    _
    { server_name := "srv", alg := .RS256, priv_key := { kid := 0 }, pub_key := "pem" }
    [{ name := "alice",
       pass_hash := .phc defaultArgon2Params "s" (argon2Hash defaultArgon2Params "s" "pw"),
       token_version := 0 }]
    [{ name := "alice",
       pass_hash := .phc defaultArgon2Params "s" (argon2Hash defaultArgon2Params "s" "pw"),
       token_version := 0 }]
    [{ name := "alice",
       pass_hash := .phc defaultArgon2Params "s" (argon2Hash defaultArgon2Params "s" "pw"),
       token_version := 1 }]
    [{ name := "alice",
       pass_hash := .phc defaultArgon2Params "s" (argon2Hash defaultArgon2Params "s" "pw"),
       token_version := 1 }]
    { aud := "app", duration := 3600, name := "alice", pass := "pw" }
    _ 1000 2000
    rfl rfl rfl rfl rfl (by rfl) Relation.ReflTransGen.refl (by rfl)
    Relation.ReflTransGen.refl (by decide)

/-- The cons unfolding of the find helper. -/
theorem findCol_cons (c : String) (rest : List String) (f : String) :
    findCol (c :: rest) f
      = if c == f then some 0 else (findCol rest f).map (· + 1) := rfl

/-- A found column index is within the column list. -/
theorem findCol_lt_length (l : List String) (f : String) :
    ∀ i, findCol l f = some i → i < l.length := by
  induction l with
  | nil => intro i h; cases h
  | cons c rest ih =>
    intro i h
    rw [findCol_cons] at h
    split at h
    · cases h; simp
    · obtain ⟨j, hj, hji⟩ := Option.map_eq_some'.mp h
      have := ih j hj
      simp only [List.length_cons]
      omega

/-- A hit in the first list is the hit in the concatenation. -/
theorem findCol_append_left (l1 l2 : List String) (f : String) :
    ∀ i, findCol l1 f = some i → findCol (l1 ++ l2) f = some i := by
  induction l1 with
  | nil => intro i h; cases h
  | cons c rest ih =>
    intro i h
    rw [findCol_cons] at h
    rw [List.cons_append, findCol_cons]
    split at h
    next hc =>
      cases h
      rw [if_pos hc]
    next hc =>
      rw [if_neg hc]
      obtain ⟨j, hj, hji⟩ := Option.map_eq_some'.mp h
      rw [ih j hj]
      simp [hji]

/-- A miss in the first list shifts the search into the second list. -/
theorem findCol_none_append (l1 l2 : List String) (f : String)
    (h : findCol l1 f = none) :
    findCol (l1 ++ l2) f = (findCol l2 f).map (· + l1.length) := by
  induction l1 with
  | nil =>
    simp only [List.nil_append, List.length_nil]
    cases findCol l2 f <;> rfl
  | cons c rest ih =>
    rw [findCol_cons] at h
    split at h
    · cases h
    next hc =>
      have hrest : findCol rest f = none := Option.map_eq_none'.mp h
      rw [List.cons_append, findCol_cons, if_neg hc, ih hrest]
      cases findCol l2 f with
      | none => rfl
      | some j => simp only [Option.map_some', List.length_cons, Nat.add_assoc]

/-- Pointwise-equal field lookups give equal entity parses. -/
theorem from_row_fields_congr (fields : List String) (r r2 : Row)
    (h : ∀ f, fieldLookup r f = fieldLookup r2 f) :
    from_row_fields fields r = from_row_fields fields r2 := by
  unfold from_row_fields
  induction fields with
  | nil => rfl
  | cons f fs ih => rw [List.mapM_cons, List.mapM_cons, h f, ih]

/-- On the concatenation of two equal-length column groups, a field of the
first entity (offset 0) resolves exactly as on its own group alone. -/
theorem fieldLookup_append_first (g : List String) (vs1 vs2 : List SqlValue)
    (hlen : vs1.length = g.length) (f : String) :
    fieldLookup { off := 0, cols := g ++ g, vals := vs1 ++ vs2 } f
      = fieldLookup { off := 0, cols := g, vals := vs1 } f := by
  unfold fieldLookup
  cases hfind : findCol g f with
  | none =>
    have h2 : findCol (g ++ g) f = none := by
      rw [findCol_none_append g g f hfind, hfind]
      rfl
    rw [h2]
  | some i =>
    rw [findCol_append_left g g f i hfind]
    unfold Row.get
    dsimp only
    have hi : i + 0 < vs1.length := by
      have := findCol_lt_length g f i hfind
      omega
    rw [List.get?_append hi]

/-- On the concatenation of the same column group with itself, a field of
the second entity (offset the first group's length) resolves exactly as on
the second group alone: the first-occurrence index within the repeated
layout equals the within-group index. -/
theorem fieldLookup_append_second (g : List String) (vs1 vs2 : List SqlValue)
    (n : Nat) (hlen1 : vs1.length = g.length) (hn : n = g.length) (f : String) :
    fieldLookup { off := n, cols := g ++ g, vals := vs1 ++ vs2 } f
      = fieldLookup { off := 0, cols := g, vals := vs2 } f := by
  unfold fieldLookup
  cases hfind : findCol g f with
  | none =>
    have h2 : findCol (g ++ g) f = none := by
      rw [findCol_none_append g g f hfind, hfind]
      rfl
    rw [h2]
  | some i =>
    rw [findCol_append_left g g f i hfind]
    unfold Row.get
    dsimp only
    have hi : i < g.length := findCol_lt_length g f i hfind
    have hsplit : (vs1 ++ vs2).get? (i + n) = vs2.get? (i + 0) := by
      rw [List.get?_append_right (by omega)]
      congr 1
      omega
    rw [hsplit]

/-- At offset 0 a field lookup is an association-list lookup over the
column-name/value pairs. -/
theorem fieldLookup_eq_lookup (cols : List String) (vals : List SqlValue)
    (hlen : vals.length = cols.length) (f : String) :
    fieldLookup { off := 0, cols := cols, vals := vals } f
      = match List.lookup f (cols.zip vals) with
        | some v => .ok v
        | none => .error (.missingColumn f) := by
  induction cols generalizing vals with
  | nil =>
    cases vals with
    | nil => rfl
    | cons v vs => cases hlen
  | cons c cs ih =>
    cases vals with
    | nil => cases hlen
    | cons v vs =>
      have hlen2 : vs.length = cs.length := by simpa using hlen
      by_cases hc : c = f
      · unfold fieldLookup
        rw [findCol_cons, if_pos (by simp [hc])]
        simp [List.lookup, Row.get, show (f == c) = true from by simp [hc]]
      · unfold fieldLookup
        rw [findCol_cons, if_neg (by simp [hc])]
        have hfc : (f == c) = false := by
          rw [beq_eq_false_iff_ne]
          exact fun h => hc h.symm
        simp only [List.zip_cons_cons, List.lookup, hfc]
        have hrec := ih vs hlen2
        unfold fieldLookup at hrec
        cases hfind : findCol cs f with
        | none =>
          rw [hfind] at hrec
          simpa using hrec
        | some j =>
          rw [hfind] at hrec
          simp only [Option.map_some']
          unfold Row.get at hrec ⊢
          simpa using hrec

/-- Association-list lookup is invariant under permutation when the keys are
distinct. -/
theorem lookup_perm_of_nodup (l1 l2 : List (String × SqlValue)) (hperm : l1.Perm l2) :
    (l1.map Prod.fst).Nodup → ∀ f, List.lookup f l1 = List.lookup f l2 := by
  induction hperm with
  | nil => intro _ f; rfl
  | cons x hp ih =>
    intro hnd f
    obtain ⟨k, b⟩ := x
    simp only [List.map_cons, List.nodup_cons] at hnd
    by_cases hk : (f == k) = true
    · simp [List.lookup, hk]
    · simp only [List.lookup, hk]
      exact ih hnd.2 f
  | swap x y l =>
    intro hnd f
    obtain ⟨k1, b1⟩ := x
    obtain ⟨k2, b2⟩ := y
    simp only [List.map_cons, List.nodup_cons, List.mem_cons] at hnd
    have hne : k2 ≠ k1 := fun h => hnd.1 (Or.inl h)
    by_cases h1 : (f == k1) = true <;> by_cases h2 : (f == k2) = true
    · exfalso
      apply hne
      rw [beq_iff_eq] at h1 h2
      rw [← h2, h1]
    · simp [List.lookup, h1, h2]
    · simp [List.lookup, h1, h2]
    · simp [List.lookup, h1, h2]
  | trans hp1 hp2 ih1 ih2 =>
    intro hnd f
    rw [ih1 hnd f, ih2 ((hp1.map Prod.fst).nodup hnd) f]

/-- C8 counterexample: two independently mappable single-field entities with
disjoint column names "a" and "b", and the row made of their two column
groups; the pair mapping resolves the second entity's field at its
first-occurrence index plus the offset — out of range — instead of reading
the second group, while each component parses its own group fine. -/
theorem pair_from_row_counterexample :
    pair_from_row ["a"] ["b"]
        { off := 0, cols := ["a", "b"], vals := [.int 1, .int 2] }
      = .error .invalidColumnIndex ∧
    from_row_fields ["a"] { off := 0, cols := ["a"], vals := [.int 1] }
      = .ok [.int 1] ∧
    from_row_fields ["b"] { off := 0, cols := ["b"], vals := [.int 2] }
      = .ok [.int 2] := by
  refine ⟨?_, ?_, ?_⟩ <;> rfl

/-- C8 amended: single-entity row mapping resolves fields by column name, so
the parse is invariant under any reordering of the (distinct-named) columns
together with their values; and the pair mapping composes componentwise for
a row made of a column group followed by an identically laid out group of
the same entity shape — the case where each field's first occurrence in the
combined columns sits at its within-group index.  (For groups with
different layouts, e.g. disjoint names, the pair mapping misresolves the
second entity's fields, as the counterexample shows.) -/
theorem row_mapping_by_name :
    (∀ (fields cols cols2 : List String) (vals vals2 : List SqlValue),
      cols.Nodup → vals.length = cols.length → vals2.length = cols2.length →
      (cols.zip vals).Perm (cols2.zip vals2) →
      from_row_fields fields { off := 0, cols := cols, vals := vals }
        = from_row_fields fields { off := 0, cols := cols2, vals := vals2 }) ∧
    (∀ (fields g : List String) (vs1 vs2 : List SqlValue),
      fields.length = g.length → vs1.length = g.length → vs2.length = g.length →
      pair_from_row fields fields { off := 0, cols := g ++ g, vals := vs1 ++ vs2 }
        = match from_row_fields fields { off := 0, cols := g, vals := vs1 },
                from_row_fields fields { off := 0, cols := g, vals := vs2 } with
          | .ok t, .ok u => .ok (t, u)
          | .error e, _ => .error e
          | .ok _, .error e => .error e) := by
  constructor
  · intro fields cols cols2 vals vals2 hnd hlen hlen2 hperm
    apply from_row_fields_congr
    intro f
    rw [fieldLookup_eq_lookup cols vals hlen f,
      fieldLookup_eq_lookup cols2 vals2 hlen2 f]
    have hkeys : (cols.zip vals).map Prod.fst = cols :=
      List.map_fst_zip cols vals (le_of_eq hlen.symm)
    rw [lookup_perm_of_nodup _ _ hperm (by rw [hkeys]; exact hnd) f]
  · intro fields g vs1 vs2 hf hlen1 hlen2
    unfold pair_from_row
    have h1 : from_row_fields fields { off := 0, cols := g ++ g, vals := vs1 ++ vs2 }
        = from_row_fields fields { off := 0, cols := g, vals := vs1 } :=
      from_row_fields_congr _ _ _ (fun f => fieldLookup_append_first g vs1 vs2 hlen1 f)
    have h2 : from_row_fields fields
          (Row.advance { off := 0, cols := g ++ g, vals := vs1 ++ vs2 } fields.length)
        = from_row_fields fields { off := 0, cols := g, vals := vs2 } := by
      unfold Row.advance
      exact from_row_fields_congr _ _ _
        (fun f => fieldLookup_append_second g vs1 vs2 (0 + fields.length) hlen1
          (by omega) f)
    rw [h1, h2]
    cases from_row_fields fields { off := 0, cols := g, vals := vs1 } <;>
      cases from_row_fields fields { off := 0, cols := g, vals := vs2 } <;> rfl

/-- Witness for C8 amended: a concrete column reordering and a concrete
homogeneous pair row. -/
theorem row_mapping_by_name_witness :
    (from_row_fields ["name", "ver"]
        { off := 0, cols := ["name", "ver"], vals := [.text "al", .int 1] }
      = from_row_fields ["name", "ver"]
        { off := 0, cols := ["ver", "name"], vals := [.int 1, .text "al"] }) ∧
    (pair_from_row ["v"] ["v"]
        { off := 0, cols := ["v"] ++ ["v"], vals := [.int 1] ++ [.int 2] }
      = match from_row_fields ["v"] { off := 0, cols := ["v"], vals := [.int 1] },
              from_row_fields ["v"] { off := 0, cols := ["v"], vals := [.int 2] } with
        | .ok t, .ok u => .ok (t, u)
        | .error e, _ => .error e
        | .ok _, .error e => .error e) :=
  ⟨row_mapping_by_name.1 ["name", "ver"] ["name", "ver"] ["ver", "name"]
      [.text "al", .int 1] [.int 1, .text "al"]
      (by decide) (by decide) (by decide) (by decide),
    row_mapping_by_name.2 ["v"] ["v"] [.int 1] [.int 2]
      (by decide) (by decide) (by decide)⟩

end Authn
